import Mathlib

/-
  Verification of the go-scrape-books core against its specification.

  Shallow embedding conventions:
  - Go strings are modelled at the Unicode-codepoint level as `List Char`
    (`GoStr`).  All string operations the code uses (TrimSpace, ReplaceAll
    with a valid UTF-8 pattern, equality) respect UTF-8 codepoint
    boundaries, so this is faithful to Go's byte-level semantics.
  - Go `map[K]V` values are modelled as association lists with first-match
    lookup; a missing key reads as the zero value, as in Go.
  - `time.Duration` and Go `int` are modelled as `Int`; where int64
    overflow matters (the backoff shift/multiply) the two's-complement
    wrap is made explicit via `int64wrap`.
  - Mutex-protected shared state (the dedup set, the metrics counters,
    the retry bookkeeping, the pipeline closed/err flags) is modelled by
    explicit state passing over the linearized order in which the
    critical sections execute; quantifying over all input orders covers
    every interleaving of the real program.
-/

namespace GoScrapeBooks

/-- Go strings at codepoint granularity. -/
abbrev GoStr := List Char

/-- Go `unicode.IsSpace`: the Unicode White_Space property. -/
def goIsSpace (c : Char) : Bool :=
  c = '\t' || c = '\n' || c = Char.ofNat 11 || c = Char.ofNat 12 ||
  c = '\r' || c = ' ' || c = Char.ofNat 0x85 || c = Char.ofNat 0xA0 ||
  c = Char.ofNat 0x1680 ||
  (0x2000 ≤ c.toNat && c.toNat ≤ 0x200A) ||
  c = Char.ofNat 0x2028 || c = Char.ofNat 0x2029 ||
  c = Char.ofNat 0x202F || c = Char.ofNat 0x205F || c = Char.ofNat 0x3000

/-- Go `strings.TrimSpace`: drop leading and trailing white space. -/
def trimSpace (s : GoStr) : GoStr :=
  ((s.dropWhile goIsSpace).reverse.dropWhile goIsSpace).reverse

/-- Whether `pat` occurs at the head of `s`. -/
def startsWith : GoStr → GoStr → Bool
  | _, [] => true
  | [], _ :: _ => false
  | c :: s, o :: os => c = o && startsWith s os

/-- Scanner for `strings.ReplaceAll` with a non-empty pattern: `skip`
counts characters still covered by the previous match (already emitted
as part of `new`), so the scan is structurally recursive on `s`. -/
def replaceAllAux (old new : GoStr) : Nat → GoStr → GoStr
  | _, [] => []
  | skip + 1, _ :: rest => replaceAllAux old new skip rest
  | 0, c :: rest =>
    if startsWith (c :: rest) old then
      new ++ replaceAllAux old new (old.length - 1) rest
    else
      c :: replaceAllAux old new 0 rest

/-- Go `strings.ReplaceAll`: replace every non-overlapping leftmost
occurrence of `old` by `new`; for an empty `old`, Go inserts `new`
before every rune and at the end. -/
def replaceAll (s old new : GoStr) : GoStr :=
  if old = [] then new ++ s.flatMap (fun c => c :: new)
  else replaceAllAux old new 0 s

namespace Parser

/-- The literal passed to `strings.ReplaceAll` in `NormalizePrice`.
The Go source bytes are C3 82 C2 A3, i.e. the two codepoints
U+00C2 followed by U+00A3 — mojibake of the pound sign, not the
two-byte pound sign U+00A3 itself. -/
def currencyNoise : GoStr := [Char.ofNat 0xC2, Char.ofNat 0xA3]

/-- Go `parser.NormalizePrice`. -/
def NormalizePrice (price : GoStr) : GoStr :=
  trimSpace (replaceAll (trimSpace price) currencyNoise [])

/-- Go `parser.NormalizeAvailability`. -/
def NormalizeAvailability (text : GoStr) : GoStr :=
  trimSpace text

/-- Go `parser.RatingToNumeric` (the switch-based version in
`parser/parser.go`). -/
def RatingToNumeric (rating : GoStr) : Int :=
  let t := trimSpace rating
  if t = "Zero".toList then 0
  else if t = "One".toList then 1
  else if t = "Two".toList then 2
  else if t = "Three".toList then 3
  else if t = "Four".toList then 4
  else if t = "Five".toList then 5
  else 0

end Parser

namespace ParserAlt

/-- The `ratingWordToValue` map of the map-lookup variant of the parser
package, as an association list. -/
def ratingWordToValue : List (GoStr × Int) :=
  [("Zero".toList, 0), ("One".toList, 1), ("Two".toList, 2),
   ("Three".toList, 3), ("Four".toList, 4), ("Five".toList, 5)]

/-- Go `parser.RatingToNumeric` (the map-lookup version). -/
def RatingToNumeric (rating : GoStr) : Int :=
  let normalized := trimSpace rating
  match List.lookup normalized ratingWordToValue with
  | some v => v
  | none => 0

end ParserAlt

/-- Go `models.Book`. -/
structure Book where
  title : GoStr
  price : GoStr
  ratingText : GoStr
  ratingNumeric : Int
  availability : GoStr
  imageURL : GoStr
  url : GoStr
  scrapedAt : Int
deriving DecidableEq, Repr

/-- The distinct failure cases of `parser.ValidateBook`. -/
inductive ValidationIssue where
  | nilBook
  | missingTitle
  | missingPrice
  | missingRating
deriving DecidableEq, Repr

/-- Go `parser.ValidateBook`: required-field checks on a possibly-nil
book pointer; `none` means the book is valid. -/
def ValidateBook : Option Book → Option ValidationIssue
  | none => some .nilBook
  | some b =>
    if trimSpace b.title = [] then some .missingTitle
    else if trimSpace b.price = [] then some .missingPrice
    else if trimSpace b.ratingText = [] then some .missingRating
    else none


/-! Association-list model of Go maps with integer values. -/

/-- Read a key from a Go `map[string]int`-style map (zero when absent). -/
def mapGet (m : List (String × Int)) (k : String) : Int :=
  (List.lookup k m).getD 0

/-- Increment a key of a Go `map[string]int`-style map. -/
def mapInc (m : List (String × Int)) (k : String) : List (String × Int) :=
  if (List.lookup k m).isSome then
    m.map (fun kv => if kv.1 = k then (kv.1, kv.2 + 1) else kv)
  else
    m ++ [(k, 1)]

/-- Store a key of a Go `map[string]V`-style map keyed by URL strings. -/
def mapSet (m : List (GoStr × Int)) (k : GoStr) (v : Int) : List (GoStr × Int) :=
  if (List.lookup k m).isSome then
    m.map (fun kv => if kv.1 = k then (kv.1, v) else kv)
  else
    m ++ [(k, v)]

/-- Delete a key from a Go map keyed by URL strings. -/
def mapDel (m : List (GoStr × Int)) (k : GoStr) : List (GoStr × Int) :=
  m.filter (fun kv => kv.1 != k)

/-- Read a key from a Go map keyed by URL strings (zero when absent). -/
def mapGetU (m : List (GoStr × Int)) (k : GoStr) : Int :=
  (List.lookup k m).getD 0

/-! The streaming pipeline (`pipeline.Pipeline`). -/

/-- The `metrics` struct of the pipeline: processed counter plus the
`validation` map from failure kind to count. -/
structure PipeMetrics where
  processed : Int
  validation : List (String × Int)
deriving DecidableEq, Repr

/-- The per-record shared state a worker touches inside `prepare`: the
dedup `seen` set and the metrics counters (each guarded by its mutex in
the source; modelled over the linearized critical-section order). -/
structure PipeState where
  seen : List GoStr
  metrics : PipeMetrics
deriving DecidableEq, Repr

/-- The shared state as built by `NewPipeline`: empty seen set, zeroed
metrics (`newMetrics`). -/
def newPipeState : PipeState :=
  { seen := [], metrics := { processed := 0, validation := [] } }

/-- The in-place normalization `prepare` performs on an accepted book:
price, availability and numeric rating; all other fields (notably the
URL) are untouched. -/
def normalizeBook (b : Book) : Book :=
  { b with
    price := Parser.NormalizePrice b.price,
    availability := Parser.NormalizeAvailability b.availability,
    ratingNumeric := Parser.RatingToNumeric b.ratingText }

/-- Go `(*Pipeline).prepare`: validate, dedup under the `seenMu` lock,
normalize, count; `none` means the record was dropped. -/
def prepare (s : PipeState) (b : Book) : Option Book × PipeState :=
  if (ValidateBook (some b)).isSome then
    (none, { s with metrics := { s.metrics with
              validation := mapInc s.metrics.validation "invalid_record" } })
  else if b.url ∈ s.seen then
    (none, { s with metrics := { s.metrics with
              validation := mapInc s.metrics.validation "duplicate_url" } })
  else
    (some (normalizeBook b),
     { seen := b.url :: s.seen,
       metrics := { s.metrics with processed := s.metrics.processed + 1 } })

/-- All `prepare` calls of a run in their linearized order, returning
the accepted (normalized) records and the final shared state. -/
def prepareAll (s : PipeState) : List Book → List Book × PipeState
  | [] => ([], s)
  | b :: rest =>
    match prepare s b with
    | (none, s1) => prepareAll s1 rest
    | (some b1, s1) =>
      let (acc, sf) := prepareAll s1 rest
      (b1 :: acc, sf)

/-- Go `(*Pipeline).worker` for one worker: drain the channel contents
`input`, `prepare` each record, accumulate a private batch, flush at
`batchSize` and once more at channel close.  `sinkOk batch` models the
sink returning a nil error from `Write(batch)`.  Returns the sequence
of `Write` calls issued, the final shared state, and the error the
worker hands to `setErr` (if any). -/
def workerGo (batchSize : Nat) (sinkOk : List Book → Bool) :
    List Book → PipeState → List Book → List (List Book) →
    List (List Book) × PipeState × Option String
  | [], s, batch, writes =>
    if batch.isEmpty then (writes, s, none)
    else if sinkOk batch then (writes ++ [batch], s, none)
    else (writes ++ [batch], s, some "write batch")
  | b :: rest, s, batch, writes =>
    match prepare s b with
    | (none, s1) => workerGo batchSize sinkOk rest s1 batch writes
    | (some b1, s1) =>
      let batch1 := batch ++ [b1]
      if batchSize ≤ batch1.length then
        if sinkOk batch1 then workerGo batchSize sinkOk rest s1 [] (writes ++ [batch1])
        else (writes ++ [batch1], s1, some "write batch")
      else workerGo batchSize sinkOk rest s1 batch1 writes

/-- The sink of the happy path: every `Write` returns nil. -/
def alwaysOk : List Book → Bool := fun _ => true

/-- The closed/err control state of the pipeline (`mu`-guarded fields
plus the two close-once signals). -/
structure PipeCtl where
  closed : Bool
  errMsg : Option String
  shutdown : Bool
  chClosed : Bool
deriving DecidableEq, Repr

/-- Control state as built by `NewPipeline`. -/
def newPipeCtl : PipeCtl :=
  { closed := false, errMsg := none, shutdown := false, chClosed := false }

/-- Go `(*Pipeline).setErr` (a no-op on a nil error): record the first
error, mark the pipeline closed, signal shutdown and close the book
channel; later errors are discarded. -/
def setErr (p : PipeCtl) (e : Option String) : PipeCtl :=
  match e with
  | none => p
  | some msg =>
    if p.errMsg.isSome then p
    else { p with errMsg := some msg, closed := true, shutdown := true, chClosed := true }

/-- Go `(*Pipeline).Err`. -/
def Err (p : PipeCtl) : Option String := p.errMsg

/-- Go `(*Pipeline).Close` on the control state: mark closed, signal
shutdown, close the channel, and (after the workers have drained)
return the first recorded error. -/
def Close (p : PipeCtl) : Option String × PipeCtl :=
  let p1 : PipeCtl := { p with closed := true, shutdown := true, chClosed := true }
  (p1.errMsg, p1)

/-- A single-worker run followed by `Close`: the worker error (if any)
reaches the control state through `setErr`, and `Close` reports it. -/
def singleRunClose (batchSize : Nat) (sinkOk : List Book → Bool) (input : List Book) :
    Option String :=
  (Close (setErr newPipeCtl (workerGo batchSize sinkOk input newPipeState [] []).2.2)).1

/-- The error outcomes of `(*Pipeline).Process`. -/
inductive ProcErr where
  | pipelineClosed
  | recorded (msg : String)
deriving DecidableEq, Repr

/-- Go `(*Pipeline).enqueue`: fail fast once shutdown is signalled; a
send on the closed channel panics and the recover turns it into
`ErrPipelineClosed`; otherwise the book joins the buffered channel
(modelled unbounded — blocking on a full buffer only delays the send
and is invisible to the safety claims). -/
def enqueue (p : PipeCtl) (queue : List Book) (b : Book) : Option ProcErr × List Book :=
  if p.shutdown then (some .pipelineClosed, queue)
  else if p.chClosed then (some .pipelineClosed, queue)
  else (none, queue ++ [b])

/-- The enqueue loop of `Process` over the submitted slice (nil entries
are skipped); stops at the first enqueue failure. -/
def enqueueAll (p : PipeCtl) (queue : List Book) :
    List (Option Book) → Option ProcErr × List Book
  | [] => (none, queue)
  | none :: rest => enqueueAll p queue rest
  | some b :: rest =>
    match enqueue p queue b with
    | (some e, q) => (some e, q)
    | (none, q) => enqueueAll p q rest

/-- Go `(*Pipeline).Process`: empty submissions succeed; a recorded
error or the closed flag rejects the submission before anything is
enqueued. -/
def Process (p : PipeCtl) (queue : List Book) (books : List (Option Book)) :
    Option ProcErr × List Book :=
  if books.length = 0 then (none, queue)
  else
    match p.errMsg with
    | some msg => (some (.recorded msg), queue)
    | none =>
      if p.closed then (some .pipelineClosed, queue)
      else enqueueAll p queue books

/-! Drain-deadline Close (spec-modelled). -/

/-- Outcome of the drain-deadline `Close`. -/
inductive CloseOutcome where
  | completed (err : Option String)
  | timedOut
deriving DecidableEq, Repr

/-- Modelled from the spec: the drain-deadline variant of
`(*Pipeline).Close`.  The implementation holding `drainTimeout` and
`ErrPipelineCloseTimeout` is referenced by `pipeline_test.go`
(`TestPipelineCloseTimeout`) but is not among the provided sources;
per §4.1/§5 of the spec, `Close` waits for the workers to drain and,
if the sink has not made progress by the drain deadline, returns the
distinguished timeout error instead of blocking.  `drainCompletesAt`
is the instant the workers finish draining (`none` when the sink
blocks forever); the second component is the instant `Close` returns. -/
def closeWithDeadline (drainTimeout : Int) (drainCompletesAt : Option Int)
    (workerErr : Option String) : CloseOutcome × Int :=
  match drainCompletesAt with
  | some t => if t ≤ drainTimeout then (.completed workerErr, t) else (.timedOut, drainTimeout)
  | none => (.timedOut, drainTimeout)

/-! The retry scheduler (`scraper.retryManager`). -/

/-- Two's-complement wrap of an integer into the int64 range, used
where Go's `time.Duration` arithmetic can overflow. -/
def int64wrap (x : Int) : Int :=
  (x + 2 ^ 63) % 2 ^ 64 - 2 ^ 63

/-- Go `1 << s` at type int (int64): zero once the shift count reaches
the word width, two's-complement wrapped below it. -/
def goShl1 (s : Int) : Int :=
  if 64 ≤ s then 0 else int64wrap (2 ^ s.toNat)

/-- The `retryManager` state: configuration (`MaxRetries`,
`RetryBackoff`, `RetryBackoffMax` in nanoseconds), the per-URL attempt
counts, the armed timers (keyed by URL, holding the delay), the global
retry counter, the Prometheus retries counter, and the stopped flag
plus the external cancellation signal (`ctx.Done()` fired). -/
structure RetryManager where
  maxRetries : Int
  retryBackoff : Int
  retryBackoffMax : Int
  attempts : List (GoStr × Int)
  timers : List (GoStr × Int)
  totalRetries : Int
  retriesMetric : Int
  stopped : Bool
  ctxDone : Bool
deriving DecidableEq, Repr

/-- Go `newRetryManager` with the given configuration. -/
def newRetryManager (maxRetries retryBackoff retryBackoffMax : Int) : RetryManager :=
  { maxRetries := maxRetries, retryBackoff := retryBackoff,
    retryBackoffMax := retryBackoffMax, attempts := [], timers := [],
    totalRetries := 0, retriesMetric := 0, stopped := false, ctxDone := false }

/-- The attempt count recorded for a URL (zero when absent, as for a
Go map read). -/
def getAttempts (rm : RetryManager) (url : GoStr) : Int :=
  mapGetU rm.attempts url

/-- Go `(*retryManager).backoff`: exponential delay
`base * (1 << (attempt-1))` in int64 duration arithmetic, clamped to
`RetryBackoffMax` when that is positive; `base` falls back to 100ms
when `RetryBackoff` is non-positive. -/
def backoff (rm : RetryManager) (attempt : Int) : Int :=
  let attempt1 := if attempt ≤ 0 then 1 else attempt
  let base := if rm.retryBackoff ≤ 0 then 100000000 else rm.retryBackoff
  let delay := int64wrap (base * goShl1 (attempt1 - 1))
  if rm.retryBackoffMax > 0 ∧ delay > rm.retryBackoffMax then rm.retryBackoffMax else delay

/-- Clamp `x` to `mx` when `mx` is positive (the final step of
`backoff`). -/
def clampToMax (mx x : Int) : Int :=
  if mx > 0 ∧ x > mx then mx else x

/-- The effective backoff base: the configured `RetryBackoff`, or 100ms
when that is non-positive. -/
def goBackoffBase (rm : RetryManager) : Int :=
  if rm.retryBackoff ≤ 0 then 100000000 else rm.retryBackoff

/-- Go `(*retryManager).Schedule`: deny when the configured maximum is
zero, the cancellation signal has fired (checked both before and under
the lock), the scheduler is stopped, or the URL has reached its attempt
cap; otherwise bump the attempt count and the retry counters, replace
any armed timer for the URL and arm a new one with the backoff delay. -/
def Schedule (rm : RetryManager) (url : GoStr) : Bool × RetryManager :=
  if rm.maxRetries = 0 then (false, rm)
  else if rm.ctxDone then (false, rm)
  else if rm.stopped then (false, rm)
  else if rm.ctxDone then (false, rm)
  else
    let attempt := getAttempts rm url
    if rm.maxRetries ≤ attempt then (false, rm)
    else
      let attempt1 := attempt + 1
      let rm1 : RetryManager :=
        { rm with attempts := mapSet rm.attempts url attempt1,
                  totalRetries := rm.totalRetries + 1,
                  retriesMetric := rm.retriesMetric + 1 }
      let delay := backoff rm1 attempt1
      let rm2 : RetryManager :=
        { rm1 with timers := mapSet (mapDel rm1.timers url) url delay }
      (true, rm2)

/-- Go `(*retryManager).TotalRetries`. -/
def TotalRetries (rm : RetryManager) : Int := rm.totalRetries

/-- Go `(*retryManager).Stop`: idempotent; cancels all armed timers and
blocks future scheduling. -/
def Stop (rm : RetryManager) : RetryManager :=
  if rm.stopped then rm else { rm with stopped := true, timers := [] }

/-! The error classifier (`classifyError` / `errorTypeLabel`). -/

/-- The transport-level features of a raw cause that `classifyError`
can observe: `errors.Is(err, context.DeadlineExceeded)`,
`errors.As(err, &netErr) && netErr.Timeout()`, and
`errors.As(err, &opErr)` for `*net.OpError`. -/
structure Cause where
  isDeadlineExceeded : Bool
  isNetTimeout : Bool
  isOpError : Bool
deriving DecidableEq, Repr

/-- Whether `errors.Is(err, context.DeadlineExceeded)` holds (false on
a nil error). -/
def hasDeadline : Option Cause → Bool
  | none => false
  | some c => c.isDeadlineExceeded

/-- Whether the cause is a `net.Error` reporting a timeout. -/
def hasNetTimeout : Option Cause → Bool
  | none => false
  | some c => c.isNetTimeout

/-- Whether the cause matches `*net.OpError`. -/
def hasOpError : Option Cause → Bool
  | none => false
  | some c => c.isOpError

/-- The wrapped error values `classifyError` can return. -/
inductive Classified where
  | timeout (inner : Option Cause)
  | connection (inner : Option Cause)
  | forbidden (inner : Option Cause)
  | notFound (inner : Option Cause)
  | rateLimited (inner : Option Cause)
  | passthrough (c : Cause)
deriving DecidableEq, Repr

/-- Go `classifyError(err, statusCode)`: nil on (nil, 0); first-match
dispatch over deadline, net timeout, op-error, then the 403/404/429
status mapping when a status is present, else the raw cause (or nil). -/
def classifyError (err : Option Cause) (statusCode : Int) : Option Classified :=
  if err = none ∧ statusCode = 0 then none
  else if hasDeadline err then some (.timeout err)
  else if hasNetTimeout err then some (.timeout err)
  else if hasOpError err then some (.connection err)
  else if statusCode ≠ 0 ∧ statusCode = 403 then some (.forbidden err)
  else if statusCode ≠ 0 ∧ statusCode = 404 then some (.notFound err)
  else if statusCode ≠ 0 ∧ statusCode = 429 then some (.rateLimited err)
  else
    match err with
    | none => none
    | some c => some (.passthrough c)

/-- Go `errorTypeLabel`: "unknown" on nil, else the tag of the first
matching wrapper type; a raw transport cause is none of the wrapper
types, so it labels "other". -/
def errorTypeLabel : Option Classified → String
  | none => "unknown"
  | some (.timeout _) => "timeout"
  | some (.connection _) => "connection"
  | some (.forbidden _) => "forbidden"
  | some (.notFound _) => "not_found"
  | some (.rateLimited _) => "rate_limited"
  | some (.passthrough _) => "other"

/-- The label the scraper records for a (cause, status) pair:
`errorTypeLabel(classifyError(err, statusCode))`. -/
def classifyLabel (err : Option Cause) (statusCode : Int) : String :=
  errorTypeLabel (classifyError err statusCode)

/-! Auxiliary specification-side data for the theorems. -/

/-- Pure batching of a list: accumulate onto `batch`, emit a chunk when
it reaches `bs`, emit the final partial chunk at the end.  This mirrors
the worker's batching behaviour on the already-accepted records. -/
def chunkAcc (bs : Nat) : List Book → List Book → List (List Book)
  | batch, [] => if batch.isEmpty then [] else [batch]
  | batch, x :: rest =>
    if bs ≤ (batch ++ [x]).length then (batch ++ [x]) :: chunkAcc bs [] rest
    else chunkAcc bs (batch ++ [x]) rest

/-- The records of a submission that pass `ValidateBook`. -/
def validOnes (l : List Book) : List Book :=
  l.filter (fun b => (ValidateBook (some b)).isNone)

/-- A small valid book with a URL derived from `i`, as in the
`TestPipelineBatchFlushThreshold` fixture. -/
def mkBook (i : Nat) : Book :=
  { title := "Book".toList, price := "12.00".toList, ratingText := "Three".toList,
    ratingNumeric := 0, availability := "In stock".toList, imageURL := [],
    url := [Char.ofNat (100 + i)], scrapedAt := 0 }

/-- Sixty-five distinct valid books (the 65-record batching fixture). -/
def books65 : List Book := (List.range 65).map mkBook

/-- The retry manager of the backoff tests: base 200ms, cap 500ms (the
max-retries field plays no role in `backoff`). -/
def rmBackoffTest : RetryManager := newRetryManager 2 200000000 500000000

/-- The retry manager of `TestRetryManagerScheduleRespectsLimit`:
max retries 2, backoff 1h. -/
def rmScheduleTest : RetryManager := newRetryManager 2 3600000000000 3600000000000

/-- The test URL of the retry scheduler tests. -/
def urlPage : GoStr := "http://example.com/page".toList

/-- A deadline-exceeded cause (`context.DeadlineExceeded`). -/
def deadlineCause : Cause :=
  { isDeadlineExceeded := true, isNetTimeout := false, isOpError := false }

/-- An unrecognized plain cause (`errors.New("some other error")`). -/
def plainCause : Cause :=
  { isDeadlineExceeded := false, isNetTimeout := false, isOpError := false }

/-! Helper lemmas about the association-list maps. -/

theorem lookup_map_inc (m : List (String × Int)) (k : String) :
    List.lookup k (m.map (fun kv => if kv.1 = k then (kv.1, kv.2 + 1) else kv))
      = (List.lookup k m).map (fun v => v + 1) := by
  induction m with
  | nil => rfl
  | cons hd tl ih =>
    obtain ⟨a, v⟩ := hd
    by_cases hak : a = k
    · subst hak
      rw [List.map_cons,
        show (if (a, v).1 = a then ((a, v).1, (a, v).2 + 1) else (a, v)) = (a, v + 1) from
          if_pos rfl]
      simp only [List.lookup, beq_self_eq_true]
      rfl
    · rw [List.map_cons,
        show (if (a, v).1 = k then ((a, v).1, (a, v).2 + 1) else (a, v)) = (a, v) from
          if_neg hak]
      have hb : (k == a) = false := beq_eq_false_iff_ne.mpr fun h => hak h.symm
      simp only [List.lookup, hb, ih]

theorem lookup_map_inc_ne (m : List (String × Int)) (k q : String) (h : q ≠ k) :
    List.lookup q (m.map (fun kv => if kv.1 = k then (kv.1, kv.2 + 1) else kv))
      = List.lookup q m := by
  induction m with
  | nil => rfl
  | cons hd tl ih =>
    obtain ⟨a, v⟩ := hd
    by_cases hak : a = k
    · subst hak
      rw [List.map_cons,
        show (if (a, v).1 = a then ((a, v).1, (a, v).2 + 1) else (a, v)) = (a, v + 1) from
          if_pos rfl]
      have hb : (q == a) = false := beq_eq_false_iff_ne.mpr h
      simp only [List.lookup, hb, ih]
    · rw [List.map_cons,
        show (if (a, v).1 = k then ((a, v).1, (a, v).2 + 1) else (a, v)) = (a, v) from
          if_neg hak]
      by_cases hqa : q = a
      · subst hqa
        simp only [List.lookup, beq_self_eq_true]
      · have hb : (q == a) = false := beq_eq_false_iff_ne.mpr hqa
        simp only [List.lookup, hb, ih]

theorem lookup_append_pair (m : List (String × Int)) (k : String)
    (h : List.lookup k m = none) :
    List.lookup k (m ++ [(k, 1)]) = some 1 := by
  induction m with
  | nil => simp [List.lookup]
  | cons hd tl ih =>
    obtain ⟨a, v⟩ := hd
    by_cases hka : k = a
    · subst hka
      simp only [List.lookup, beq_self_eq_true] at h
      exact Option.noConfusion h
    · have hb : (k == a) = false := beq_eq_false_iff_ne.mpr hka
      simp only [List.lookup, hb] at h
      simp only [List.cons_append, List.lookup, hb]
      exact ih h

theorem lookup_append_pair_ne (m : List (String × Int)) (k q : String) (h : q ≠ k) :
    List.lookup q (m ++ [(k, 1)]) = List.lookup q m := by
  induction m with
  | nil =>
    simp only [List.nil_append, List.lookup, beq_eq_false_iff_ne.mpr h]
  | cons hd tl ih =>
    obtain ⟨a, v⟩ := hd
    by_cases hqa : q = a
    · subst hqa
      simp only [List.cons_append, List.lookup, beq_self_eq_true]
    · have hb : (q == a) = false := beq_eq_false_iff_ne.mpr hqa
      simp only [List.cons_append, List.lookup, hb]
      exact ih

theorem mapGet_mapInc_self (m : List (String × Int)) (k : String) :
    mapGet (mapInc m k) k = mapGet m k + 1 := by
  unfold mapGet mapInc
  by_cases h : (List.lookup k m).isSome
  · simp only [h, if_true, lookup_map_inc]
    obtain ⟨v, hv⟩ := Option.isSome_iff_exists.mp h
    simp [hv]
  · have hn : List.lookup k m = none := Option.not_isSome_iff_eq_none.mp h
    simp [h, hn, lookup_append_pair m k hn]

theorem mapGet_mapInc_ne (m : List (String × Int)) (k q : String) (h : q ≠ k) :
    mapGet (mapInc m k) q = mapGet m q := by
  unfold mapGet mapInc
  by_cases hs : (List.lookup k m).isSome
  · simp [hs, lookup_map_inc_ne m k q h]
  · simp [hs, lookup_append_pair_ne m k q h]

theorem lookup_map_set {α : Type} [BEq α] [LawfulBEq α] [DecidableEq α]
    (m : List (α × Int)) (k : α) (v : Int) (h : (List.lookup k m).isSome) :
    List.lookup k (m.map (fun kv => if kv.1 = k then (kv.1, v) else kv)) = some v := by
  induction m with
  | nil => simp [List.lookup] at h
  | cons hd tl ih =>
    obtain ⟨a, w⟩ := hd
    by_cases hak : a = k
    · subst hak
      rw [List.map_cons,
        show (if (a, w).1 = a then ((a, w).1, v) else (a, w)) = (a, v) from if_pos rfl]
      simp only [List.lookup, beq_self_eq_true]
    · rw [List.map_cons,
        show (if (a, w).1 = k then ((a, w).1, v) else (a, w)) = (a, w) from if_neg hak]
      have hb : (k == a) = false := beq_eq_false_iff_ne.mpr fun hh => hak hh.symm
      simp only [List.lookup, hb] at h ⊢
      exact ih h

theorem lookup_append_kv {α : Type} [BEq α] [LawfulBEq α]
    (m : List (α × Int)) (k : α) (v : Int) (h : List.lookup k m = none) :
    List.lookup k (m ++ [(k, v)]) = some v := by
  induction m with
  | nil => simp [List.lookup]
  | cons hd tl ih =>
    obtain ⟨a, w⟩ := hd
    by_cases hka : (k == a) = true
    · simp only [List.lookup, hka] at h
      exact Option.noConfusion h
    · have hb : (k == a) = false := Bool.not_eq_true _ ▸ Bool.of_not_eq_true hka
      simp only [List.lookup, hb] at h
      simp only [List.cons_append, List.lookup, hb]
      exact ih h

theorem mapGetU_mapSet_self (m : List (GoStr × Int)) (k : GoStr) (v : Int) :
    mapGetU (mapSet m k v) k = v := by
  unfold mapGetU mapSet
  by_cases h : (List.lookup k m).isSome
  · simp [h, lookup_map_set m k v h]
  · have hn : List.lookup k m = none := Option.not_isSome_iff_eq_none.mp h
    simp [h, lookup_append_kv m k v hn]

/-! Helper lemmas about `prepare` and `prepareAll`. -/

theorem normalizeBook_url (b : Book) : (normalizeBook b).url = b.url := rfl

theorem prepare_invalid (s : PipeState) (b : Book)
    (hv : (ValidateBook (some b)).isSome) :
    prepare s b
      = (none, ⟨s.seen, s.metrics.processed, mapInc s.metrics.validation "invalid_record"⟩) := by
  simp [prepare, hv]

theorem prepare_dup (s : PipeState) (b : Book)
    (hv : ValidateBook (some b) = none) (hm : b.url ∈ s.seen) :
    prepare s b
      = (none, ⟨s.seen, s.metrics.processed, mapInc s.metrics.validation "duplicate_url"⟩) := by
  simp [prepare, hv, hm]

theorem prepare_accept (s : PipeState) (b : Book)
    (hv : ValidateBook (some b) = none) (hm : b.url ∉ s.seen) :
    prepare s b
      = (some (normalizeBook b),
         ⟨b.url :: s.seen, s.metrics.processed + 1, s.metrics.validation⟩) := by
  simp [prepare, hv, hm]

theorem prepareAll_cons_none (s s1 : PipeState) (b : Book) (rest : List Book)
    (hp : prepare s b = (none, s1)) :
    prepareAll s (b :: rest) = prepareAll s1 rest := by
  rw [prepareAll, hp]

theorem prepareAll_cons_some (s s1 : PipeState) (b b1 : Book) (rest : List Book)
    (hp : prepare s b = (some b1, s1)) :
    prepareAll s (b :: rest)
      = (b1 :: (prepareAll s1 rest).1, (prepareAll s1 rest).2) := by
  rw [prepareAll, hp]

theorem prepareAll_accepted (input : List Book) : ∀ s : PipeState,
    (((prepareAll s input).1.map Book.url).Nodup)
    ∧ ∀ b1 ∈ (prepareAll s input).1, b1.url ∉ s.seen := by
  induction input with
  | nil => intro s; simp [prepareAll]
  | cons b rest ih =>
    intro s
    by_cases hv : (ValidateBook (some b)).isSome
    · rw [prepareAll_cons_none s _ b rest (prepare_invalid s b hv)]
      exact ih _
    · have hvn : ValidateBook (some b) = none := Option.not_isSome_iff_eq_none.mp hv
      by_cases hm : b.url ∈ s.seen
      · rw [prepareAll_cons_none s _ b rest (prepare_dup s b hvn hm)]
        exact ih _
      · rw [prepareAll_cons_some s _ b (normalizeBook b) rest (prepare_accept s b hvn hm)]
        obtain ⟨hnd, hfresh⟩ :=
          ih ⟨b.url :: s.seen, s.metrics.processed + 1, s.metrics.validation⟩
        constructor
        · simp only [List.map_cons, normalizeBook_url]
          refine List.nodup_cons.mpr ⟨?_, hnd⟩
          intro hmem
          obtain ⟨b1, hb1, hurl⟩ := List.mem_map.mp hmem
          have hf := hfresh b1 hb1
          rw [hurl] at hf
          exact hf (by simp)
        · intro b1 hb1
          rcases List.mem_cons.mp hb1 with h1 | h1
          · subst h1
            simpa [normalizeBook_url] using hm
          · have hf := hfresh b1 h1
            intro hc
            exact hf (by simp [hc])

theorem prepareAll_coverage (input : List Book) : ∀ (s : PipeState) (u : GoStr),
    (∃ b ∈ input, ValidateBook (some b) = none ∧ b.url = u) →
    u ∈ s.seen ∨ u ∈ (prepareAll s input).1.map Book.url := by
  induction input with
  | nil =>
    intro s u h
    obtain ⟨b, hb, _⟩ := h
    exact absurd hb (List.not_mem_nil b)
  | cons b rest ih =>
    intro s u h
    by_cases hv : (ValidateBook (some b)).isSome
    · rw [prepareAll_cons_none s _ b rest (prepare_invalid s b hv)]
      obtain ⟨b1, hb1, hval, hurl⟩ := h
      rcases List.mem_cons.mp hb1 with h1 | h1
      · subst h1
        exact absurd hv (by simp [hval])
      · simpa using
          ih ⟨s.seen, s.metrics.processed, mapInc s.metrics.validation "invalid_record"⟩ u
            ⟨b1, h1, hval, hurl⟩
    · have hvn : ValidateBook (some b) = none := Option.not_isSome_iff_eq_none.mp hv
      by_cases hm : b.url ∈ s.seen
      · rw [prepareAll_cons_none s _ b rest (prepare_dup s b hvn hm)]
        obtain ⟨b1, hb1, hval, hurl⟩ := h
        rcases List.mem_cons.mp hb1 with h1 | h1
        · subst h1
          left
          rw [← hurl]
          exact hm
        · simpa using
            ih ⟨s.seen, s.metrics.processed, mapInc s.metrics.validation "duplicate_url"⟩ u
              ⟨b1, h1, hval, hurl⟩
      · rw [prepareAll_cons_some s _ b (normalizeBook b) rest (prepare_accept s b hvn hm)]
        obtain ⟨b1, hb1, hval, hurl⟩ := h
        rcases List.mem_cons.mp hb1 with h1 | h1
        · subst h1
          right
          simp [normalizeBook_url, hurl]
        · rcases ih ⟨b.url :: s.seen, s.metrics.processed + 1, s.metrics.validation⟩ u
              ⟨b1, h1, hval, hurl⟩ with hseen | hacc
          · rcases List.mem_cons.mp (by simpa using hseen) with h2 | h2
            · right
              simp [normalizeBook_url, h2]
            · left
              exact h2
          · right
            simp only [List.map_cons, normalizeBook_url]
            exact List.mem_cons_of_mem _ hacc

theorem prepareAll_dup_count (input : List Book) : ∀ s : PipeState,
    mapGet (prepareAll s input).2.metrics.validation "duplicate_url"
        + ((prepareAll s input).1.length : Int)
      = mapGet s.metrics.validation "duplicate_url" + ((validOnes input).length : Int) := by
  induction input with
  | nil => intro s; simp [prepareAll, validOnes]
  | cons b rest ih =>
    intro s
    by_cases hv : (ValidateBook (some b)).isSome
    · rw [prepareAll_cons_none s _ b rest (prepare_invalid s b hv)]
      obtain ⟨i, hi⟩ := Option.isSome_iff_exists.mp hv
      have hvo : validOnes (b :: rest) = validOnes rest := by
        simp [validOnes, List.filter_cons, hi]
      rw [hvo]
      have h2 := ih ⟨s.seen, s.metrics.processed, mapInc s.metrics.validation "invalid_record"⟩
      simp only at h2
      rw [h2]
      simp [mapGet_mapInc_ne _ "invalid_record" "duplicate_url" (by decide)]
    · have hvn : ValidateBook (some b) = none := Option.not_isSome_iff_eq_none.mp hv
      have hvo : validOnes (b :: rest) = b :: validOnes rest := by
        simp [validOnes, List.filter_cons, hvn]
      by_cases hm : b.url ∈ s.seen
      · rw [prepareAll_cons_none s _ b rest (prepare_dup s b hvn hm), hvo]
        have h2 := ih ⟨s.seen, s.metrics.processed, mapInc s.metrics.validation "duplicate_url"⟩
        simp only at h2
        rw [h2]
        simp only [mapGet_mapInc_self, List.length_cons]
        push_cast
        ring
      · rw [prepareAll_cons_some s _ b (normalizeBook b) rest (prepare_accept s b hvn hm), hvo]
        have h2 := ih ⟨b.url :: s.seen, s.metrics.processed + 1, s.metrics.validation⟩
        simp only [List.length_cons] at h2 ⊢
        push_cast at h2 ⊢
        omega

/-! Helper lemmas about `chunkAcc` and the worker loop. -/

theorem chunkAcc_join (bs : Nat) (l : List Book) : ∀ batch : List Book,
    (chunkAcc bs batch l).flatten = batch ++ l := by
  induction l with
  | nil =>
    intro batch
    by_cases hb : batch.isEmpty
    · simp [chunkAcc, hb, List.isEmpty_iff.mp hb]
    · simp [chunkAcc, hb]
  | cons x rest ih =>
    intro batch
    by_cases hf : bs ≤ batch.length + 1
    · simp [chunkAcc, hf, ih]
    · simp [chunkAcc, hf, ih]

theorem chunkAcc_dropLast_len (bs : Nat) (l : List Book) : ∀ batch : List Book,
    batch.length < bs →
    ∀ w ∈ (chunkAcc bs batch l).dropLast, w.length = bs := by
  induction l with
  | nil =>
    intro batch hlt w hw
    by_cases hb : batch.isEmpty <;> simp [chunkAcc, hb] at hw
  | cons x rest ih =>
    intro batch hlt w hw
    by_cases hf : bs ≤ (batch ++ [x]).length
    · have hlen : (batch ++ [x]).length = bs := by
        simp only [List.length_append, List.length_singleton] at hf ⊢
        omega
      simp only [chunkAcc, hf, if_true] at hw
      rcases hcr : chunkAcc bs [] rest with _ | ⟨c, cs⟩
      · rw [hcr] at hw
        simp at hw
      · rw [hcr, List.dropLast_cons₂] at hw
        rcases List.mem_cons.mp hw with h1 | h1
        · rw [h1, hlen]
        · have hih := ih [] (by simp only [List.length_nil]; omega) w
          rw [hcr] at hih
          exact hih h1
    · simp only [chunkAcc, hf, if_false] at hw
      have hlt1 : (batch ++ [x]).length < bs := Nat.lt_of_not_le hf
      exact ih (batch ++ [x]) hlt1 w hw

theorem chunkAcc_mem_bounds (bs : Nat) (l : List Book) : ∀ batch : List Book,
    batch.length < bs →
    ∀ w ∈ chunkAcc bs batch l, w ≠ [] ∧ w.length ≤ bs := by
  induction l with
  | nil =>
    intro batch hlt w hw
    by_cases hb : batch.isEmpty
    · simp [chunkAcc, hb] at hw
    · simp [chunkAcc, hb] at hw
      subst hw
      exact ⟨fun hc => hb (by simp [hc]), Nat.le_of_lt hlt⟩
  | cons x rest ih =>
    intro batch hlt w hw
    by_cases hf : bs ≤ (batch ++ [x]).length
    · have hlen : (batch ++ [x]).length = bs := by
        simp only [List.length_append, List.length_singleton] at hf ⊢
        omega
      simp only [chunkAcc, hf, if_true] at hw
      rcases List.mem_cons.mp hw with h1 | h1
      · subst h1
        refine ⟨fun hc => ?_, Nat.le_of_eq hlen⟩
        have : (batch ++ [x]).length = 0 := by rw [hc]; rfl
        simp at this
      · exact ih [] (by simp only [List.length_nil]; omega) w h1
    · simp only [chunkAcc, hf, if_false] at hw
      exact ih (batch ++ [x]) (Nat.lt_of_not_le hf) w hw

theorem workerGo_clean (bs : Nat) (input : List Book) :
    ∀ (s : PipeState) (batch : List Book) (writes : List (List Book)),
    (∀ b ∈ input, ValidateBook (some b) = none) →
    ((input.map Book.url).Nodup) →
    (∀ b ∈ input, b.url ∉ s.seen) →
    (workerGo bs alwaysOk input s batch writes).1
        = writes ++ chunkAcc bs batch (input.map normalizeBook)
    ∧ (workerGo bs alwaysOk input s batch writes).2.2 = none := by
  induction input with
  | nil =>
    intro s batch writes _ _ _
    by_cases hb : batch.isEmpty
    · simp [workerGo, chunkAcc, hb]
    · simp [workerGo, chunkAcc, hb, alwaysOk]
  | cons b rest ih =>
    intro s batch writes hvalid hnodup hfresh
    have hvb : ValidateBook (some b) = none := hvalid b (List.mem_cons_self b rest)
    have hmb : b.url ∉ s.seen := hfresh b (List.mem_cons_self b rest)
    have hrest_valid : ∀ b1 ∈ rest, ValidateBook (some b1) = none :=
      fun b1 h1 => hvalid b1 (List.mem_cons_of_mem b h1)
    have hrest_nodup : (rest.map Book.url).Nodup := (List.nodup_cons.mp hnodup).2
    have hrest_fresh :
        ∀ b1 ∈ rest, b1.url ∉ (⟨b.url :: s.seen, s.metrics.processed + 1,
            s.metrics.validation⟩ : PipeState).seen := by
      intro b1 h1
      intro hc
      rcases List.mem_cons.mp hc with h2 | h2
      · exact (List.nodup_cons.mp hnodup).1 (h2 ▸ List.mem_map_of_mem Book.url h1)
      · exact hfresh b1 (List.mem_cons_of_mem b h1) h2
    rw [workerGo, prepare_accept s b hvb hmb]
    by_cases hf : bs ≤ (batch ++ [normalizeBook b]).length
    · simp only [hf, if_true, alwaysOk]
      obtain ⟨h1, h2⟩ :=
        ih ⟨b.url :: s.seen, s.metrics.processed + 1, s.metrics.validation⟩ []
          (writes ++ [batch ++ [normalizeBook b]]) hrest_valid hrest_nodup hrest_fresh
      refine ⟨?_, h2⟩
      rw [h1]
      simp only [List.map_cons, chunkAcc, hf, if_true]
      simp [List.append_assoc]
    · simp only [hf, if_false]
      obtain ⟨h1, h2⟩ :=
        ih ⟨b.url :: s.seen, s.metrics.processed + 1, s.metrics.validation⟩
          (batch ++ [normalizeBook b]) writes hrest_valid hrest_nodup hrest_fresh
      refine ⟨?_, h2⟩
      rw [h1]
      simp only [List.map_cons, chunkAcc, hf, if_false]

/-! Helper lemmas about `setErr`. -/

theorem setErr_of_some (p : PipeCtl) (e : Option String) (h : p.errMsg.isSome) :
    setErr p e = p := by
  cases e with
  | none => rfl
  | some msg => simp [setErr, h]

theorem foldl_setErr_sticky (es : List (Option String)) : ∀ p : PipeCtl,
    p.errMsg.isSome → es.foldl setErr p = p := by
  induction es with
  | nil => intro p _; rfl
  | cons e rest ih =>
    intro p hp
    rw [List.foldl_cons, setErr_of_some p e hp]
    exact ih p hp

theorem foldl_setErr_first (es : List (Option String)) : ∀ p : PipeCtl,
    p.errMsg = none →
    (es.foldl setErr p).errMsg = (es.filterMap id).head?
    ∧ ((es.filterMap id) ≠ [] → (es.foldl setErr p).closed = true) := by
  induction es with
  | nil =>
    intro p hp
    exact ⟨by simpa using hp, by simp⟩
  | cons e rest ih =>
    intro p hp
    cases e with
    | none =>
      rw [List.foldl_cons]
      have : setErr p none = p := rfl
      rw [this]
      simpa using ih p hp
    | some msg =>
      have hset : setErr p (some msg)
          = { p with errMsg := some msg, closed := true, shutdown := true, chClosed := true } := by
        simp [setErr, hp]
      rw [List.foldl_cons, hset,
        foldl_setErr_sticky rest _ (by simp)]
      simp

/-! Helper lemmas about int64 arithmetic and `backoff`. -/

theorem int64wrap_id (x : Int) (h0 : 0 ≤ x) (h1 : x < 2 ^ 63) : int64wrap x = x := by
  unfold int64wrap
  rw [Int.emod_eq_of_lt (by omega) (by norm_num; omega)]
  omega

theorem clampToMax_mono (mx x y : Int) (h : x ≤ y) : clampToMax mx x ≤ clampToMax mx y := by
  unfold clampToMax
  split_ifs with h1 h2 <;> omega

theorem backoff_formula (rm : RetryManager) (n : Int) (h1 : 1 ≤ n)
    (hof : goBackoffBase rm * 2 ^ (n - 1).toNat < 2 ^ 63) :
    backoff rm n = clampToMax rm.retryBackoffMax (goBackoffBase rm * 2 ^ (n - 1).toNat) := by
  have hbase : 1 ≤ goBackoffBase rm := by
    unfold goBackoffBase
    split_ifs with h <;> omega
  have hexp : (2 : Int) ^ (n - 1).toNat < 2 ^ 63 := by
    calc (2 : Int) ^ (n - 1).toNat
        ≤ goBackoffBase rm * 2 ^ (n - 1).toNat := by
          nth_rewrite 1 [← one_mul ((2 : Int) ^ (n - 1).toNat)]
          exact mul_le_mul_of_nonneg_right hbase (by positivity)
      _ < 2 ^ 63 := hof
  have hlt63 : (n - 1).toNat < 63 := by
    by_contra hc
    push_neg at hc
    have : (2 : Int) ^ 63 ≤ 2 ^ (n - 1).toNat :=
      pow_le_pow_right₀ (by norm_num) hc
    omega
  have hshift : ¬ (64 : Int) ≤ n - 1 := by omega
  unfold backoff goShl1
  simp only [if_neg (show ¬ n ≤ 0 from by omega), if_neg hshift]
  rw [show (if rm.retryBackoff ≤ 0 then (100000000 : Int) else rm.retryBackoff)
      = goBackoffBase rm from rfl]
  rw [int64wrap_id ((2 : Int) ^ (n - 1).toNat) (by positivity) (by omega)]
  rw [int64wrap_id _ (by positivity) (by omega)]
  rfl

theorem backoff_mono (rm : RetryManager) (m n : Int) (h1 : 1 ≤ m) (hmn : m ≤ n)
    (hof : goBackoffBase rm * 2 ^ (n - 1).toNat < 2 ^ 63) :
    backoff rm m ≤ backoff rm n := by
  have hbase : 1 ≤ goBackoffBase rm := by
    unfold goBackoffBase
    split_ifs with h <;> omega
  have hexp : (2 : Int) ^ (m - 1).toNat ≤ 2 ^ (n - 1).toNat :=
    pow_le_pow_right₀ (by norm_num) (Int.toNat_le_toNat (by omega))
  have hxy : goBackoffBase rm * 2 ^ (m - 1).toNat ≤ goBackoffBase rm * 2 ^ (n - 1).toNat :=
    mul_le_mul_of_nonneg_left hexp (by omega)
  rw [backoff_formula rm m h1 (lt_of_le_of_lt hxy hof),
    backoff_formula rm n (by omega) hof]
  exact clampToMax_mono _ _ _ hxy

/-! Helper lemmas about the classifier. -/

theorem classifyLabel_some (c : Cause) (code : Int) :
    classifyLabel (some c) code =
      if c.isDeadlineExceeded then "timeout"
      else if c.isNetTimeout then "timeout"
      else if c.isOpError then "connection"
      else if code = 403 then "forbidden"
      else if code = 404 then "not_found"
      else if code = 429 then "rate_limited"
      else "other" := by
  unfold classifyLabel classifyError hasDeadline hasNetTimeout hasOpError
  rw [if_neg (by simp : ¬ ((some c = none) ∧ code = 0))]
  by_cases hd : c.isDeadlineExceeded
  · simp [hd, errorTypeLabel]
  · by_cases hn : c.isNetTimeout
    · simp [hd, hn, errorTypeLabel]
    · by_cases ho : c.isOpError
      · simp [hd, hn, ho, errorTypeLabel]
      · by_cases h403 : code = 403
        · simp [hd, hn, ho, h403, errorTypeLabel]
        · by_cases h404 : code = 404
          · simp [hd, hn, ho, h403, h404, errorTypeLabel]
          · by_cases h429 : code = 429
            · simp [hd, hn, ho, h403, h404, h429, errorTypeLabel]
            · simp [hd, hn, ho, h403, h404, h429, errorTypeLabel]

theorem classifyLabel_none (code : Int) :
    classifyLabel none code =
      if code = 0 then "unknown"
      else if code = 403 then "forbidden"
      else if code = 404 then "not_found"
      else if code = 429 then "rate_limited"
      else "unknown" := by
  unfold classifyLabel classifyError hasDeadline hasNetTimeout hasOpError
  by_cases h0 : code = 0
  · simp [h0, errorTypeLabel]
  · by_cases h403 : code = 403
    · simp [h0, h403, errorTypeLabel]
    · by_cases h404 : code = 404
      · simp [h0, h403, h404, errorTypeLabel]
      · by_cases h429 : code = 429
        · simp [h0, h403, h404, h429, errorTypeLabel]
        · simp [h0, h403, h404, h429, errorTypeLabel]

/-! The claims. -/

/-- C1: over every linearized order of `prepare` calls (covering every
interleaving, since the seen-set check-and-insert runs under `seenMu`),
each dedup key appears at most once among the accepted records; every
key carried by at least one valid record is accepted exactly once; and
the `duplicate_url` counter accounts for all remaining valid records,
so two records racing on one key are never both accepted. -/
theorem c1_dedup_exactly_once : ∀ input : List Book,
    (((prepareAll newPipeState input).1.map Book.url).Nodup)
    ∧ (∀ u : GoStr, (∃ b ∈ input, ValidateBook (some b) = none ∧ b.url = u) →
        u ∈ (prepareAll newPipeState input).1.map Book.url)
    ∧ mapGet (prepareAll newPipeState input).2.metrics.validation "duplicate_url"
        + ((prepareAll newPipeState input).1.length : Int)
      = ((validOnes input).length : Int) := by
  intro input
  obtain ⟨hnd, _⟩ := prepareAll_accepted input newPipeState
  refine ⟨hnd, ?_, ?_⟩
  · intro u hu
    rcases prepareAll_coverage input newPipeState u hu with h | h
    · simp [newPipeState] at h
    · exact h
  · have h := prepareAll_dup_count input newPipeState
    simpa [newPipeState, mapGet] using h

/-- Witness for C1 at a concrete duplicated submission: the repeated
URL is delivered (and, with the no-duplicates part, exactly once). -/
theorem c1_dedup_exactly_once_witness :
    (mkBook 0).url ∈ (prepareAll newPipeState [mkBook 0, mkBook 0]).1.map Book.url := by
  exact (c1_dedup_exactly_once [mkBook 0, mkBook 0]).2.1 (mkBook 0).url
    ⟨mkBook 0, List.mem_cons_self _ _, by decide, rfl⟩

/-- C2: a single worker over valid records with pairwise-distinct URLs
flushes exactly the submitted records (normalized, in order) as full
batches of the configured size with all but the last batch full, the
last one non-empty and at most full, and `Close` reports no error; in
particular 65 such records with batch size 64 produce exactly two
`Write` calls of sizes 64 and 1. -/
theorem c2_worker_batching (bs : Nat) (input : List Book)
    (hvalid : ∀ b ∈ input, ValidateBook (some b) = none)
    (hnodup : (input.map Book.url).Nodup) :
    singleRunClose bs alwaysOk input = none
    ∧ (workerGo bs alwaysOk input newPipeState [] []).1.flatten = input.map normalizeBook
    ∧ (1 ≤ bs → ∀ w ∈ (workerGo bs alwaysOk input newPipeState [] []).1.dropLast,
        w.length = bs)
    ∧ (1 ≤ bs → ∀ w ∈ (workerGo bs alwaysOk input newPipeState [] []).1,
        w ≠ [] ∧ w.length ≤ bs)
    ∧ (workerGo 64 alwaysOk books65 newPipeState [] []).1.map List.length = [64, 1] := by
  have hfresh : ∀ b ∈ input, b.url ∉ newPipeState.seen := by
    intro b _
    simp [newPipeState]
  obtain ⟨h1, h2⟩ := workerGo_clean bs input newPipeState [] [] hvalid hnodup hfresh
  refine ⟨?_, ?_, ?_, ?_, by decide⟩
  · unfold singleRunClose
    rw [h2]
    rfl
  · rw [h1]
    simp [chunkAcc_join]
  · intro hbs w hw
    rw [h1] at hw
    simp only [List.nil_append] at hw
    exact chunkAcc_dropLast_len bs _ [] (by simp only [List.length_nil]; omega) w hw
  · intro hbs w hw
    rw [h1] at hw
    simp only [List.nil_append] at hw
    exact chunkAcc_mem_bounds bs _ [] (by simp only [List.length_nil]; omega) w hw

/-- Witness for C2 at the 65-record fixture: close succeeds and the
two `Write` calls have sizes 64 and 1. -/
theorem c2_worker_batching_witness :
    singleRunClose 64 alwaysOk books65 = none
    ∧ (workerGo 64 alwaysOk books65 newPipeState [] []).1.map List.length = [64, 1] := by
  have h := c2_worker_batching 64 books65 (by decide) (by decide)
  exact ⟨h.1, h.2.2.2.2⟩

/-- C3: over every linearized sequence of `setErr` calls (the `mu`
mutex linearizes them), the recorded error is the first non-nil one,
a later error never overwrites it, the pipeline is marked closed as
soon as one is recorded, and `Close` returns exactly that first
error. -/
theorem c3_first_error_wins : ∀ es : List (Option String),
    ((es.foldl setErr newPipeCtl).errMsg = (es.filterMap id).head?)
    ∧ ((es.filterMap id) ≠ [] → (es.foldl setErr newPipeCtl).closed = true)
    ∧ (Close (es.foldl setErr newPipeCtl)).1 = (es.filterMap id).head? := by
  intro es
  obtain ⟨h1, h2⟩ := foldl_setErr_first es newPipeCtl rfl
  exact ⟨h1, h2, by simpa [Close] using h1⟩

/-- Witness for C3 at a concrete error sequence: the second error is
discarded, the first one is what `Close` returns, and the pipeline is
closed. -/
theorem c3_first_error_wins_witness :
    ((([some "boom", some "later"] : List (Option String)).foldl setErr newPipeCtl).closed
      = true) := by
  exact (c3_first_error_wins [some "boom", some "later"]).2.1 (by decide)

/-- C4: submitting a non-empty slice to a closed or failed pipeline is
rejected before anything is enqueued: the queue is unchanged and the
returned error is the recorded failure (when one exists) or the
distinguished pipeline-closed error. -/
theorem c4_process_after_close (p : PipeCtl) (queue : List Book)
    (books : List (Option Book))
    (hclosed : p.closed = true ∨ p.errMsg.isSome) (hne : books ≠ []) :
    (Process p queue books).2 = queue
    ∧ (Process p queue books).1
        = some (match p.errMsg with
                | some m => ProcErr.recorded m
                | none => ProcErr.pipelineClosed) := by
  unfold Process
  have hlen : ¬ books.length = 0 := by
    simpa [List.length_eq_zero] using hne
  rw [if_neg hlen]
  cases hme : p.errMsg with
  | some m => simp
  | none =>
    have hc : p.closed = true := by
      rcases hclosed with h | h
      · exact h
      · rw [hme] at h
        simp at h
    simp [hc]

/-- Witness for C4 at a concrete closed pipeline: the submission is
rejected with the pipeline-closed error and nothing is queued. -/
theorem c4_process_after_close_witness :
    (Process ⟨true, none, true, true⟩ [] [some (mkBook 0)]).2 = []
    ∧ (Process ⟨true, none, true, true⟩ [] [some (mkBook 0)]).1
        = some ProcErr.pipelineClosed := by
  have h := c4_process_after_close ⟨true, none, true, true⟩ [] [some (mkBook 0)]
    (Or.inl rfl) (by decide)
  exact ⟨h.1, h.2⟩

/-- C5 (spec-modelled): when the sink blocks forever the drain never
completes, and the drain-deadline `Close` returns the distinguished
timeout outcome exactly at the configured deadline instead of blocking
indefinitely. -/
theorem c5_close_drain_timeout : ∀ (drainTimeout : Int) (workerErr : Option String),
    (closeWithDeadline drainTimeout none workerErr).1 = CloseOutcome.timedOut
    ∧ (closeWithDeadline drainTimeout none workerErr).2 = drainTimeout := by
  intro dt we
  exact ⟨rfl, rfl⟩

/-- C6: the fixture run (max retries 2, one target) schedules
`true, true, false` with `TotalRetries() == 2`; in general `Schedule`
returns false exactly when the configured maximum is zero, the target
has reached the cap, the scheduler is stopped, or cancellation has
fired — changing nothing in those cases — and otherwise increments the
target's attempt count and the global retry counter by one each. -/
theorem c6_schedule_contract :
    (((Schedule rmScheduleTest urlPage).1 = true)
      ∧ ((Schedule (Schedule rmScheduleTest urlPage).2 urlPage).1 = true)
      ∧ ((Schedule (Schedule (Schedule rmScheduleTest urlPage).2 urlPage).2 urlPage).1
          = false)
      ∧ TotalRetries
          (Schedule (Schedule (Schedule rmScheduleTest urlPage).2 urlPage).2 urlPage).2
        = 2)
    ∧ ∀ (rm : RetryManager) (url : GoStr),
        ((Schedule rm url).1 = false ↔
          rm.maxRetries = 0 ∨ rm.maxRetries ≤ getAttempts rm url
            ∨ rm.stopped = true ∨ rm.ctxDone = true)
        ∧ ((Schedule rm url).1 = false → (Schedule rm url).2 = rm)
        ∧ ((Schedule rm url).1 = true →
            getAttempts (Schedule rm url).2 url = getAttempts rm url + 1
            ∧ (Schedule rm url).2.totalRetries = rm.totalRetries + 1) := by
  refine ⟨by decide, ?_⟩
  intro rm url
  unfold Schedule
  by_cases h0 : rm.maxRetries = 0
  · simp [h0]
  · by_cases hc : rm.ctxDone
    · simp [h0, hc]
    · by_cases hs : rm.stopped
      · simp [h0, hc, hs]
      · by_cases ha : rm.maxRetries ≤ mapGetU rm.attempts url
        · simp [h0, hc, hs, ha, getAttempts]
        · simp [h0, hc, hs, ha, getAttempts, mapGetU_mapSet_self]

/-- Witness for C6 at the fixture state: a granted `Schedule` call
increments the global retry counter by one. -/
theorem c6_schedule_contract_witness :
    (Schedule rmScheduleTest urlPage).2.totalRetries = rmScheduleTest.totalRetries + 1 := by
  exact ((c6_schedule_contract.2 rmScheduleTest urlPage).2.2 (by decide)).2

/-- C7 counterexample: with base 200ms and cap 500ms the claimed
formula value at attempt 65 is the cap 500ms (`base * 2^64` clamped),
but the computed delay is 0 — the int64 shift `1 << 64` vanishes — so
the delay also fails to be monotone (it is 500ms at attempt 4 and 0 at
attempt 65). -/
theorem c7_backoff_counterexample :
    backoff rmBackoffTest 65 = 0
    ∧ clampToMax rmBackoffTest.retryBackoffMax
        (goBackoffBase rmBackoffTest * 2 ^ ((65 : Int) - 1).toNat) = 500000000
    ∧ backoff rmBackoffTest 4 = 500000000
    ∧ backoff rmBackoffTest 65 < backoff rmBackoffTest 4 := by
  refine ⟨by decide, by decide, by decide, by decide⟩

/-- C7 (amended): for every attempt `n ≥ 1` whose backoff product
`base * 2^(n-1)` stays below `2^63` (no int64 overflow — this bounds
`n` by 63), the delay equals that product clamped to the configured
positive maximum, with base defaulting to 100ms when non-positive; the
delay is monotone non-decreasing over such attempts; and attempt 4
with base 200ms and cap 500ms stays at most 500ms. -/
theorem c7_backoff_formula_amended (rm : RetryManager) (n : Int) (h1 : 1 ≤ n)
    (hof : goBackoffBase rm * 2 ^ (n - 1).toNat < 2 ^ 63) :
    backoff rm n = clampToMax rm.retryBackoffMax (goBackoffBase rm * 2 ^ (n - 1).toNat)
    ∧ (∀ m : Int, 1 ≤ m → m ≤ n → backoff rm m ≤ backoff rm n)
    ∧ backoff rmBackoffTest 4 ≤ 500000000 := by
  exact ⟨backoff_formula rm n h1 hof,
    fun m hm hmn => backoff_mono rm m n hm hmn hof,
    by decide⟩

/-- Witness for C7 (amended) at attempt 4 with base 200ms, cap 500ms:
the formula gives exactly the 500ms cap. -/
theorem c7_backoff_formula_amended_witness :
    backoff rmBackoffTest 4 = 500000000 := by
  have h := (c7_backoff_formula_amended rmBackoffTest 4 (by decide) (by decide)).1
  rw [h]
  decide

/-- C8: the label assigned by `errorTypeLabel ∘ classifyError` (a
total function of the cause features and status code) follows the
first-match order of the source: deadline or transport timeout gives
"timeout"; otherwise an op-error gives "connection"; otherwise status
403/404/429 give "forbidden"/"not_found"/"rate_limited"; otherwise a
remaining non-nil cause gives "other"; and no cause with status 0
gives "unknown". -/
theorem c8_classifier_first_match : ∀ (err : Option Cause) (code : Int),
    (hasDeadline err = true ∨ hasNetTimeout err = true →
      classifyLabel err code = "timeout")
    ∧ (hasOpError err = true → hasDeadline err = false → hasNetTimeout err = false →
      classifyLabel err code = "connection")
    ∧ (hasDeadline err = false → hasNetTimeout err = false → hasOpError err = false →
      code = 403 → classifyLabel err code = "forbidden")
    ∧ (hasDeadline err = false → hasNetTimeout err = false → hasOpError err = false →
      code = 404 → classifyLabel err code = "not_found")
    ∧ (hasDeadline err = false → hasNetTimeout err = false → hasOpError err = false →
      code = 429 → classifyLabel err code = "rate_limited")
    ∧ (hasDeadline err = false → hasNetTimeout err = false → hasOpError err = false →
      code ≠ 403 → code ≠ 404 → code ≠ 429 → err ≠ none →
      classifyLabel err code = "other")
    ∧ (err = none → code = 0 → classifyLabel err code = "unknown") := by
  intro err code
  cases err with
  | none =>
    refine ⟨?_, ?_, ?_, ?_, ?_, ?_, ?_⟩
    · intro h
      rcases h with h | h <;> simp [hasDeadline, hasNetTimeout] at h
    · intro h
      simp [hasOpError] at h
    · intro _ _ _ h403
      rw [classifyLabel_none, h403]
      decide
    · intro _ _ _ h404
      rw [classifyLabel_none, h404]
      decide
    · intro _ _ _ h429
      rw [classifyLabel_none, h429]
      decide
    · intro _ _ _ _ _ _ hne
      exact absurd rfl hne
    · intro _ h0
      rw [classifyLabel_none, h0]
      decide
  | some c =>
    refine ⟨?_, ?_, ?_, ?_, ?_, ?_, ?_⟩
    · intro h
      rw [classifyLabel_some]
      rcases h with h | h
      · simp only [hasDeadline] at h
        simp [h]
      · simp only [hasNetTimeout] at h
        by_cases hd : c.isDeadlineExceeded <;> simp [hd, h]
    · intro hop hd hn
      simp only [hasOpError] at hop
      simp only [hasDeadline] at hd
      simp only [hasNetTimeout] at hn
      rw [classifyLabel_some]
      simp [hop, hd, hn]
    · intro hd hn hop h403
      simp only [hasDeadline] at hd
      simp only [hasNetTimeout] at hn
      simp only [hasOpError] at hop
      rw [classifyLabel_some]
      simp [hd, hn, hop, h403]
    · intro hd hn hop h404
      simp only [hasDeadline] at hd
      simp only [hasNetTimeout] at hn
      simp only [hasOpError] at hop
      rw [classifyLabel_some]
      by_cases h403 : code = 403
      · rw [h404] at h403
        exact absurd h403 (by decide)
      · simp [hd, hn, hop, h403, h404]
    · intro hd hn hop h429
      simp only [hasDeadline] at hd
      simp only [hasNetTimeout] at hn
      simp only [hasOpError] at hop
      rw [classifyLabel_some]
      by_cases h403 : code = 403
      · rw [h429] at h403
        exact absurd h403 (by decide)
      · by_cases h404 : code = 404
        · rw [h429] at h404
          exact absurd h404 (by decide)
        · simp [hd, hn, hop, h403, h404, h429]
    · intro hd hn hop h403 h404 h429 _
      simp only [hasDeadline] at hd
      simp only [hasNetTimeout] at hn
      simp only [hasOpError] at hop
      rw [classifyLabel_some]
      simp [hd, hn, hop, h403, h404, h429]
    · intro h
      exact Option.noConfusion h

/-- Witness for C8: a deadline-exceeded cause with no status labels
"timeout". -/
theorem c8_classifier_first_match_witness :
    classifyLabel (some deadlineCause) 0 = "timeout" := by
  exact (c8_classifier_first_match (some deadlineCause) 0).1 (Or.inl (by decide))

/-- C9: evaluation of the normalizers at the specified inputs.  The
price normalizer leaves `"£ 99.99 £"` unchanged — the `ReplaceAll`
pattern in the source is the two-codepoint mojibake U+00C2 U+00A3, not
the pound sign — contradicting the repository's own test expectation
of `"99.99"`, while the empty-string and rating cases hold. -/
theorem c9_normalizer_evaluations :
    Parser.NormalizePrice "£ 99.99 £".toList = "£ 99.99 £".toList
    ∧ Parser.NormalizePrice "£ 99.99 £".toList ≠ "99.99".toList
    ∧ Parser.NormalizePrice "".toList = "".toList
    ∧ Parser.RatingToNumeric "Three".toList = 3
    ∧ Parser.RatingToNumeric "three".toList = 0
    ∧ Parser.RatingToNumeric "".toList = 0
    ∧ Parser.RatingToNumeric "Invalid".toList = 0 := by
  refine ⟨by decide, by decide, by decide, by decide, by decide, by decide, by decide⟩

/-- C10: the switch-based and the map-lookup implementations of
`RatingToNumeric` agree on every input string. -/
theorem c10_rating_impls_agree :
    ∀ r : GoStr, Parser.RatingToNumeric r = ParserAlt.RatingToNumeric r := by
  intro r
  simp only [Parser.RatingToNumeric, ParserAlt.RatingToNumeric]
  generalize trimSpace r = t
  by_cases h0 : t = "Zero".toList
  · subst h0; decide
  by_cases h1 : t = "One".toList
  · subst h1; decide
  by_cases h2 : t = "Two".toList
  · subst h2; decide
  by_cases h3 : t = "Three".toList
  · subst h3; decide
  by_cases h4 : t = "Four".toList
  · subst h4; decide
  by_cases h5 : t = "Five".toList
  · subst h5; decide
  have e0 : (t == ['Z', 'e', 'r', 'o']) = false := beq_eq_false_iff_ne.mpr h0
  have e1 : (t == ['O', 'n', 'e']) = false := beq_eq_false_iff_ne.mpr h1
  have e2 : (t == ['T', 'w', 'o']) = false := beq_eq_false_iff_ne.mpr h2
  have e3 : (t == ['T', 'h', 'r', 'e', 'e']) = false := beq_eq_false_iff_ne.mpr h3
  have e4 : (t == ['F', 'o', 'u', 'r']) = false := beq_eq_false_iff_ne.mpr h4
  have e5 : (t == ['F', 'i', 'v', 'e']) = false := beq_eq_false_iff_ne.mpr h5
  have n0 : ¬t = ['Z', 'e', 'r', 'o'] := h0
  have n1 : ¬t = ['O', 'n', 'e'] := h1
  have n2 : ¬t = ['T', 'w', 'o'] := h2
  have n3 : ¬t = ['T', 'h', 'r', 'e', 'e'] := h3
  have n4 : ¬t = ['F', 'o', 'u', 'r'] := h4
  have n5 : ¬t = ['F', 'i', 'v', 'e'] := h5
  simp [ParserAlt.ratingWordToValue, List.lookup, e0, e1, e2, e3, e4, e5,
    n0, n1, n2, n3, n4, n5]

end GoScrapeBooks
